import Mathlib

/-!
Shallow embedding of `pdf2docx/image/ImagesExtractor.py` together with the
collaborating primitives it relies on (`fitz.Rect`, `fitz.Pixmap`, numpy
slice assignment), and proofs of the specification claims about it.
-/

/-- Model of `fitz.Rect`: an axis-aligned rectangle with rational
coordinates. -/
structure Rect where
  x0 : ℚ
  y0 : ℚ
  x1 : ℚ
  y1 : ℚ
deriving DecidableEq, Repr

/-- Model of `fitz.Rect.isEmpty`: true when width or height is `<= 0`. -/
def Rect.isEmptyR (r : Rect) : Bool :=
  decide (r.y1 ≤ r.y0) || decide (r.x1 ≤ r.x0)

/-- Model of `fitz.Rect.__and__` (rectangle intersection): componentwise
max of lower corners, min of upper corners. -/
def Rect.inter (r s : Rect) : Rect :=
  ⟨max r.x0 s.x0, max r.y0 s.y0, min r.x1 s.x1, min r.y1 s.y1⟩

/-- Model of `fitz.Rect.intersects`: both rectangles are non-empty and
their intersection is non-empty. -/
def Rect.intersects (r s : Rect) : Bool :=
  !r.isEmptyR && !s.isEmptyR && !(Rect.inter s r).isEmptyR

/-- Model of `fitz.Rect.__or__` (rectangle union / includeRect):
componentwise min of lower corners, max of upper corners. -/
def Rect.union (r s : Rect) : Rect :=
  ⟨min r.x0 s.x0, min r.y0 s.y0, max r.x1 s.x1, max r.y1 s.y1⟩

/-- Color spaces a `fitz.Pixmap` can declare (when it declares one at
all; stencil/alpha-only pixmaps declare none). -/
inductive Colorspace where
  | gray
  | rgb
  | cmyk
  | indexed
  | lab
deriving DecidableEq, Repr

/-- Model of `fitz.Pixmap`: declared color space (`none` for alpha-only
pixmaps), pixel dimensions, color samples, and an optional alpha channel. -/
structure Pixmap where
  colorspace : Option Colorspace
  width : Nat
  height : Nat
  samples : List Nat
  alpha : Option (List Nat)
deriving DecidableEq, Repr

/-- Model of an entry of `page.getImageList(full=True)`: the xref of the
image object and the xref of its soft mask (`0` when absent).  The other
tuple fields (width, height, bpc, colorspace name, ...) are not read by
the extractor's code paths. -/
structure ImageItem where
  xref : Nat
  smask : Nat
deriving DecidableEq, Repr

/-- Model of a page: its visible rectangle and the content streams
(byte lists) reachable from `page.get_contents()`.  Only the streams are
mutable through the extractor (`doc.updateStream`). -/
structure Page where
  rect : Rect
  streams : List (List Nat)
deriving DecidableEq, Repr

/-- Opaque collaborator operations of the document/page object model:
decoding an xref into a pixmap (`fitz.Pixmap(doc, xref)`), sample
conversion performed by `fitz.Pixmap(fitz.csRGB, pix)`, placement-box
computation (`page.getImageBbox`, `none` models the `ValueError` failure),
and rasterization (`page.getPixmap(clip=bbox, matrix=Matrix(z, z))`). -/
structure Env where
  decode : Nat → Pixmap
  rgbSamples : Pixmap → List Nat
  imageBbox : ImageItem → Option Rect
  getPixmap : Page → Rect → ℚ → Pixmap

/-- Model of `fitz.Pixmap(pix, 1)`: a copy of the pixmap with an alpha
channel added (initially fully opaque). -/
def addAlpha (p : Pixmap) : Pixmap :=
  { p with alpha := some (List.replicate (p.width * p.height) 255) }

/-- Model of `pix.setAlpha(ba)`: replace the alpha channel by the given
byte list. -/
def setAlpha (p : Pixmap) (ba : List Nat) : Pixmap :=
  { p with alpha := some ba }

/-- Model of `fitz.Pixmap(fitz.csRGB, pix)`: recreate the pixmap in the
RGB color space; dimensions and alpha channel are retained, color samples
are converted. -/
def toRGB (env : Env) (p : Pixmap) : Pixmap :=
  { p with colorspace := some .rgb, samples := env.rgbSamples p }

/-- The guard `pix.colorspace and not pix.colorspace.name in
(fitz.csGRAY.name, fitz.csRGB.name)` of `_recover_pixmap`. -/
def needs_rgb (p : Pixmap) : Bool :=
  match p.colorspace with
  | none => false
  | some cs => !(cs == .gray || cs == .rgb)

/-- Embedding of `ImagesExtractor._recover_pixmap`: decode the base image;
if a soft mask is present, add an alpha channel and set it to the mask's
samples binarized by the `> 0` threshold; finally recreate in RGB when the
declared color space is neither Gray nor RGB. -/
def recover_pixmap (env : Env) (item : ImageItem) : Pixmap :=
  let pix := env.decode item.xref
  let pix :=
    if 0 < item.smask then
      let pix := addAlpha pix
      let ba := (env.decode item.smask).samples.map (fun v => if 0 < v then 255 else v)
      setAlpha pix ba
    else pix
  if needs_rgb pix then toRGB env pix else pix

/-- Model of `bytes.replace(pat, rep)` for a two-byte pattern `a b`:
replace every leftmost non-overlapping occurrence of `[a, b]` by `r`. -/
def replace2 (a b : Nat) (r : List Nat) : List Nat → List Nat
  | [] => []
  | [x] => [x]
  | x :: y :: rest =>
    if x = a ∧ y = b then r ++ replace2 a b r rest
    else x :: replace2 a b r (y :: rest)

/-- The stream rewriting of `_hide_page_text`: replace `BT` by `BT 3 Tr`,
then `Tm` by `Tm 3 Tr`, then `Td` by `Td 3 Tr` (byte values of the
ASCII operators). -/
def hideStream (s : List Nat) : List Nat :=
  replace2 84 100 [84, 100, 32, 51, 32, 84, 114]
    (replace2 84 109 [84, 109, 32, 51, 32, 84, 114]
      (replace2 66 84 [66, 84, 32, 51, 32, 84, 114] s))

/-- Embedding of `ImagesExtractor._hide_page_text`: rewrite every content
stream of the page, committing the rewritten streams back
(`doc.updateStream`). -/
def hide_page_text (p : Page) : Page :=
  { p with streams := p.streams.map hideStream }

/-- Embedding of `ImagesExtractor._clip_page`: hide the page text (a
mutation of the page), intersect the clip box with the page rectangle
(full rectangle when no box given), and rasterize at the given zoom.
Returns the mutated page together with the pixmap. -/
def clip_page (env : Env) (page : Page) (bbox : Option Rect) (zoom : ℚ) :
    Page × Pixmap :=
  let page := hide_page_text page
  let b := match bbox with
    | none => page.rect
    | some b => Rect.inter b page.rect
  (page, env.getPixmap page b zoom)

/-- Model of the PNG payload produced by `pix.getPNGData()`: a PNG
encodes exactly the pixmap's pixel dimensions alongside the compressed
byte data. -/
structure PNG where
  width : Nat
  height : Nat
  data : List Nat
deriving DecidableEq, Repr

/-- Model of `pix.getPNGData()`. -/
def getPNGData (p : Pixmap) : PNG :=
  ⟨p.width, p.height, p.samples⟩

/-- Tag value of `BlockType.IMAGE.value` (the exact numeral is irrelevant
to every claim; the class lives outside this file's source). -/
def imageTypeValue : Nat := 3

/-- Model of the raw dict produced by `ImagesExtractor._to_raw_dict`. -/
structure ImageRecord where
  type : Nat
  bbox : Rect
  ext : String
  width : Nat
  height : Nat
  image : PNG
deriving DecidableEq, Repr

/-- Embedding of `ImagesExtractor._to_raw_dict`. -/
def to_raw_dict (image : Pixmap) (bbox : Rect) : ImageRecord :=
  { type := imageTypeValue
    bbox := bbox
    ext := "png"
    width := image.width
    height := image.height
    image := getPNGData image }

/-- Loop body of `ImagesExtractor.extract_images` for one image item:
compute the placement box (skipping on `ValueError`), skip items whose
box does not intersect the page rectangle, recover the pixmap, fall back
to clipping the page when the recovered pixmap has no color space, and
append the normalized record. -/
def extract_step (env : Env) (ratio : ℚ) :
    Page × List ImageRecord → ImageItem → Page × List ImageRecord
  | (page, recs), item =>
    match env.imageBbox item with
    | none => (page, recs)
    | some bbox =>
      if Rect.intersects bbox page.rect then
        let pix := recover_pixmap env item
        if pix.colorspace = none then
          let clipped := clip_page env page (some bbox) ratio
          (clipped.1, recs ++ [to_raw_dict clipped.2 bbox])
        else
          (page, recs ++ [to_raw_dict pix bbox])
      else (page, recs)

/-- Embedding of `ImagesExtractor.extract_images`: fold the loop body over
the page's image list, threading the page state (which `_clip_page` may
mutate) and accumulating the records. -/
def extract_images (env : Env) (page : Page) (items : List ImageItem)
    (ratio : ℚ) : Page × List ImageRecord :=
  items.foldl (extract_step env ratio) (page, [])

/-- Modelled from the spec: the adjacency/connectivity search underlying
`Collection.group` (the `pdf2docx/common/Collection.py` source is not in
the repository snapshot).  `reachb fuel l a b` holds when a chain of at
most `fuel` pairwise-intersecting hops through members of `l` leads from
`a` to `b`. -/
def reachb (fuel : Nat) (l : List Rect) (a b : Rect) : Bool :=
  match fuel with
  | 0 => a == b
  | n + 1 => a == b || l.any (fun y => Rect.intersects a y && reachb n l y b)

/-- Modelled from the spec: two contour regions are in the same cluster
when both are members of the contour list and a chain of
pairwise-intersecting members connects them (transitive closure of the
pairwise bbox-intersection adjacency predicate). -/
def connectedb (l : List Rect) (a b : Rect) : Bool :=
  l.contains a && l.contains b && reachb l.length l a b

/-- Modelled from the spec: the bounding box of the cluster containing
`a`: the union of the boxes of all members of `l` connected to `a`. -/
def clusterBox (l : List Rect) (a : Rect) : Rect :=
  (l.filter (fun b => connectedb l a b)).foldl Rect.union a

/-- Modelled from the spec: the list of cluster bounding boxes produced
by `Collection.group` — one box per connected cluster (every member of a
cluster yields the same box, so deduplicating the per-member boxes lists
each cluster once). -/
def group_boxes_list (l : List Rect) : List Rect :=
  (l.map (clusterBox l)).dedup

/-- The set of cluster bounding boxes of a contour list. -/
def group_bboxes (l : List Rect) : Finset Rect :=
  (l.map (clusterBox l)).toFinset

/-- Embedding of the clipping loop of
`ImagesExtractor.extract_vector_graphics`: for each cluster bounding box
of the detected contours, rasterize the page clipped to that box at the
given resolution ratio and normalize to a record.  The contour list is
the output of `_detect_svg_contours` (an opencv-based detection pass),
supplied here as an input. -/
def extract_vector_graphics (env : Env) (page : Page) (contours : List Rect)
    (ratio : ℚ) : List ImageRecord :=
  (group_boxes_list contours).map
    (fun bbox => to_raw_dict (env.getPixmap page bbox ratio) bbox)

/-- Resolution of a Python/numpy slice endpoint against an axis of length
`n`: a negative index wraps by `n` (clamped below at `0`), a non-negative
index is clamped above at `n`. -/
def resolveIdx (n : Nat) (i : Int) : Nat :=
  if i < 0 then (max (i + n) 0).toNat else min i.toNat n

/-- Model of the numpy row assignment `row[c0:c1] = 255` on one grayscale
row. -/
def sliceSet255 (row : List Nat) (c0 c1 : Int) : List Nat :=
  let lo := resolveIdx row.length c0
  let hi := resolveIdx row.length c1
  row.mapIdx (fun j v => if lo ≤ j ∧ j < hi then 255 else v)

/-- Embedding of the exclusion-area blanking statement
`gray[y0-2:y1+2, x0-2:x1+2] = 255` of
`ImagesExtractor._detect_svg_contours`, with numpy slice semantics
(negative endpoints wrap, endpoints clamp to the axis length). -/
def blankBox (g : List (List Nat)) (x0 y0 x1 y1 : Int) : List (List Nat) :=
  let rlo := resolveIdx g.length (y0 - 2)
  let rhi := resolveIdx g.length (y1 + 2)
  g.mapIdx (fun i row => if rlo ≤ i ∧ i < rhi then sliceSet255 row (x0 - 2) (x1 + 2) else row)

/-- Embedding of the exclusion loop of `_detect_svg_contours`: blank each
exclusion box in turn. -/
def blank_exclude_areas (g : List (List Nat)) (areas : List (Int × Int × Int × Int)) :
    List (List Nat) :=
  areas.foldl (fun g a => blankBox g a.1 a.2.1 a.2.2.1 a.2.2.2) g

/-- Concrete page rectangle used by the witness scenarios. -/
def rect0 : Rect := ⟨0, 0, 100, 100⟩

/-- Concrete in-page placement box. -/
def boxIn : Rect := ⟨10, 10, 20, 20⟩

/-- Concrete placement box entirely outside the page. -/
def boxOut : Rect := ⟨200, 200, 300, 300⟩

/-- Concrete gray pixmap. -/
def pixGrayW : Pixmap := ⟨some Colorspace.gray, 2, 2, [10, 20, 30, 40], none⟩

/-- Concrete CMYK pixmap. -/
def pixCMYKW : Pixmap := ⟨some Colorspace.cmyk, 2, 2, [1, 1, 1, 1, 2, 2, 2, 2], none⟩

/-- Concrete alpha-only (no color space) pixmap. -/
def pixNoneW : Pixmap := ⟨none, 2, 2, [0, 0, 0, 0], none⟩

/-- Concrete soft-mask pixmap with graded samples. -/
def maskPixW : Pixmap := ⟨some Colorspace.gray, 2, 2, [128, 0, 7, 255], none⟩

/-- Concrete collaborator environment: xref 1 is a gray image, xref 2 a
graded soft mask, xref 5 an alpha-only image, anything else CMYK; xref 9
has no valid placement, xref 7 is placed off-page. -/
def envW : Env where
  decode := fun x =>
    if x = 1 then pixGrayW else if x = 2 then maskPixW
    else if x = 5 then pixNoneW else pixCMYKW
  rgbSamples := fun p => p.samples
  imageBbox := fun it =>
    if it.xref = 9 then none
    else if it.xref = 7 then some boxOut
    else some boxIn
  getPixmap := fun _ _ _ => ⟨some Colorspace.rgb, 4, 4, List.replicate 48 0, none⟩

/-- Concrete page whose single content stream contains a `BT` operator. -/
def pageW : Page := ⟨rect0, [[66, 84, 65]]⟩


/-- The record invariant of the spec: a non-degenerate bounding box, and
width/height fields that equal the pixel dimensions of the buffer encoded
into the PNG payload. -/
def goodRecord (rec : ImageRecord) : Prop :=
  (rec.bbox.x0 < rec.bbox.x1 ∧ rec.bbox.y0 < rec.bbox.y1) ∧
    rec.width = rec.image.width ∧ rec.height = rec.image.height


/-! Theorems -/

/-- Alpha channel is untouched by colorspace conversion. -/
theorem toRGB_alpha (env : Env) (p : Pixmap) : (toRGB env p).alpha = p.alpha := rfl

/-- A pixmap that does not need RGB conversion already declares one of
none, Gray, RGB. -/
theorem needs_rgb_false (p : Pixmap) (h : needs_rgb p = false) :
    p.colorspace = none ∨ p.colorspace = some Colorspace.gray ∨
      p.colorspace = some Colorspace.rgb := by
  cases hcs : p.colorspace with
  | none => exact Or.inl rfl
  | some cs => cases cs <;> simp_all [needs_rgb]

/-- C1: the pixel buffer returned by `_recover_pixmap` always declares a
color space in {None, Gray, RGB}; any other declared space (CMYK,
indexed, ...) is converted to RGB before the buffer is returned. -/
theorem recover_pixmap_colorspace_normalized (env : Env) (item : ImageItem) :
    (recover_pixmap env item).colorspace = none ∨
      (recover_pixmap env item).colorspace = some Colorspace.gray ∨
      (recover_pixmap env item).colorspace = some Colorspace.rgb := by
  have last : ∀ p : Pixmap,
      (if needs_rgb p then toRGB env p else p).colorspace = none ∨
        (if needs_rgb p then toRGB env p else p).colorspace = some Colorspace.gray ∨
        (if needs_rgb p then toRGB env p else p).colorspace = some Colorspace.rgb := by
    intro p
    by_cases h : needs_rgb p
    · simp [h, toRGB]
    · simp only [h, if_neg, Bool.false_eq_true, ite_false]
      exact needs_rgb_false p (by simpa using h)
  exact last _

/-- C2: when a soft mask is present (`smask > 0`), the recovered pixmap
carries an alpha channel obtained by binarizing the mask's samples with
the `> 0` threshold: every positive sample becomes 255, every zero sample
stays 0, so every alpha sample is exactly 0 or 255; in particular a mask
whose samples are all 128 gives a uniformly 255 alpha channel. -/
theorem recover_pixmap_alpha_binary (env : Env) (item : ImageItem)
    (h : 0 < item.smask) :
    ∃ l : List Nat, (recover_pixmap env item).alpha = some l ∧
      l.length = (env.decode item.smask).samples.length ∧
      (∀ (i v : Nat), (env.decode item.smask).samples[i]? = some v →
        l[i]? = some (if 0 < v then 255 else 0)) ∧
      (∀ a ∈ l, a = 0 ∨ a = 255) ∧
      ((∀ v ∈ (env.decode item.smask).samples, v = 128) → ∀ a ∈ l, a = 255) := by
  refine ⟨(env.decode item.smask).samples.map (fun v => if 0 < v then 255 else v),
    ?_, ?_, ?_, ?_, ?_⟩
  · simp only [recover_pixmap, h, if_true, if_pos]
    split
    · rfl
    · rfl
  · simp
  · intro i v hv
    simp only [List.getElem?_map, hv, Option.map_some']
    rcases Nat.eq_zero_or_pos v with hv0 | hv0
    · simp [hv0]
    · simp [hv0]
  · intro a ha
    rcases List.mem_map.mp ha with ⟨v, _, rfl⟩
    rcases Nat.eq_zero_or_pos v with hv0 | hv0
    · simp [hv0]
    · simp [hv0]
  · intro hall a ha
    rcases List.mem_map.mp ha with ⟨v, hv, rfl⟩
    simp [hall v hv]

/-- Witness for C2 at the graded mask scenario: samples 128, 0, 7, 255
give alpha samples that are all 0 or 255. -/
theorem recover_pixmap_alpha_binary_witness :
    ∃ l : List Nat, (recover_pixmap envW ⟨1, 2⟩).alpha = some l ∧
      (∀ a ∈ l, a = 0 ∨ a = 255) := by
  obtain ⟨l, h1, _, _, h4, _⟩ := recover_pixmap_alpha_binary envW ⟨1, 2⟩ (by decide)
  exact ⟨l, h1, h4⟩

/-- Text hiding does not change the page rectangle. -/
theorem hide_page_text_rect (p : Page) : (hide_page_text p).rect = p.rect := rfl

/-- One extractor step does not change the page rectangle. -/
theorem extract_step_rect (env : Env) (ratio : ℚ) (page : Page)
    (recs : List ImageRecord) (item : ImageItem) :
    (extract_step env ratio (page, recs) item).1.rect = page.rect := by
  cases hb : env.imageBbox item with
  | none => simp [extract_step, hb]
  | some bbox =>
    by_cases hi : Rect.intersects bbox page.rect
    · by_cases hc : (recover_pixmap env item).colorspace = none
      · simp [extract_step, hb, hi, hc, clip_page, hide_page_text]
      · simp [extract_step, hb, hi, hc]
    · simp [extract_step, hb, hi]

/-- The extractor fold does not change the page rectangle. -/
theorem extract_fold_rect (env : Env) (ratio : ℚ) (items : List ImageItem) :
    ∀ (page : Page) (recs : List ImageRecord),
      ((items.foldl (extract_step env ratio) (page, recs)).1).rect = page.rect := by
  induction items with
  | nil => intro page recs; rfl
  | cons it rest ih =>
    intro page recs
    rw [List.foldl_cons]
    exact (ih _ _).trans (extract_step_rect env ratio page recs it)

/-- An item whose placement-box computation fails is a no-op for the
extractor state. -/
theorem extract_step_skip_fail (env : Env) (ratio : ℚ) (page : Page)
    (recs : List ImageRecord) (item : ImageItem)
    (h : env.imageBbox item = none) :
    extract_step env ratio (page, recs) item = (page, recs) := by
  simp [extract_step, h]

/-- An item whose placement box does not intersect the page rectangle is
a no-op for the extractor state. -/
theorem extract_step_skip_out (env : Env) (ratio : ℚ) (page : Page)
    (recs : List ImageRecord) (item : ImageItem) (bbox : Rect)
    (h : env.imageBbox item = some bbox)
    (hi : Rect.intersects bbox page.rect = false) :
    extract_step env ratio (page, recs) item = (page, recs) := by
  simp [extract_step, h, hi]

/-- C5: an image reference whose placement box does not intersect the
page rectangle contributes no record — running `extract_images` with the
reference present gives exactly the same result as without it. -/
theorem extract_images_drops_nonintersecting (env : Env) (page : Page)
    (ratio : ℚ) (item : ImageItem) (bbox : Rect) (l₁ l₂ : List ImageItem)
    (h : env.imageBbox item = some bbox)
    (hi : Rect.intersects bbox page.rect = false) :
    extract_images env page (l₁ ++ item :: l₂) ratio =
      extract_images env page (l₁ ++ l₂) ratio := by
  unfold extract_images
  rw [List.foldl_append, List.foldl_append, List.foldl_cons]
  congr 1
  have hrect : (List.foldl (extract_step env ratio) (page, []) l₁).1.rect = page.rect :=
    extract_fold_rect env ratio l₁ page []
  exact extract_step_skip_out env ratio _ _ item bbox h (by rw [hrect]; exact hi)

/-- Witness for C5: the off-page reference (xref 7) leaves result and
page state exactly as if it were absent. -/
theorem extract_images_drops_nonintersecting_witness :
    extract_images envW pageW [⟨1, 0⟩, ⟨7, 0⟩] 3 =
      extract_images envW pageW [⟨1, 0⟩] 3 :=
  extract_images_drops_nonintersecting envW pageW 3 ⟨7, 0⟩ boxOut [⟨1, 0⟩] []
    (by decide) (by decide)

/-- C7: an image reference whose placement-box computation fails (the
`ValueError` of `page.getImageBbox`) is skipped and iteration continues:
the extraction result is exactly the one for the remaining references. -/
theorem extract_images_skips_placement_failure (env : Env) (page : Page)
    (ratio : ℚ) (item : ImageItem) (l₁ l₂ : List ImageItem)
    (h : env.imageBbox item = none) :
    extract_images env page (l₁ ++ item :: l₂) ratio =
      extract_images env page (l₁ ++ l₂) ratio := by
  unfold extract_images
  rw [List.foldl_append, List.foldl_append, List.foldl_cons]
  congr 1
  exact extract_step_skip_fail env ratio _ _ item h

/-- Witness for C7: the unplaceable reference (xref 9) in the middle of
the list leaves the extraction result unchanged. -/
theorem extract_images_skips_placement_failure_witness :
    extract_images envW pageW [⟨1, 0⟩, ⟨9, 0⟩, ⟨5, 0⟩] 3 =
      extract_images envW pageW [⟨1, 0⟩, ⟨5, 0⟩] 3 :=
  extract_images_skips_placement_failure envW pageW 3 ⟨9, 0⟩ [⟨1, 0⟩] [⟨5, 0⟩]
    (by decide)

/-- C6: a reference whose recovered pixmap has no color space is not
normalized from the recovered buffer: the record is built from a
rasterization of the (text-hidden) page clipped to the reference's
placement box at the requested resolution ratio. -/
theorem extract_images_alpha_only_clips (env : Env) (page : Page)
    (ratio : ℚ) (item : ImageItem) (bbox : Rect)
    (h : env.imageBbox item = some bbox)
    (hi : Rect.intersects bbox page.rect = true)
    (hc : (recover_pixmap env item).colorspace = none) :
    extract_images env page [item] ratio =
      (hide_page_text page,
        [to_raw_dict
          (env.getPixmap (hide_page_text page) (Rect.inter bbox page.rect) ratio)
          bbox]) := by
  simp [extract_images, extract_step, h, hi, hc, clip_page, hide_page_text]

/-- Witness for C6 at the alpha-only reference (xref 5). -/
theorem extract_images_alpha_only_clips_witness :
    extract_images envW pageW [⟨5, 0⟩] 3 =
      (hide_page_text pageW,
        [to_raw_dict
          (envW.getPixmap (hide_page_text pageW) (Rect.inter boxIn pageW.rect) 3)
          boxIn]) :=
  extract_images_alpha_only_clips envW pageW 3 ⟨5, 0⟩ boxIn
    (by decide) (by decide) (by decide)

/-- Counterexample for C3: on a page with one alpha-only image reference
(xref 5) and a content stream containing the `BT` operator,
`extract_images` *does* mutate the page — the fallback `_clip_page` call
runs `_hide_page_text`, which rewrites the content streams. -/
theorem extract_images_mutates_page_counterexample :
    (extract_images envW pageW [⟨5, 0⟩] 3).1 ≠ pageW := by decide

/-- C3 (amended): `extract_images` leaves the page state unchanged
whenever no reference's recovered pixmap lacks a color space; only the
alpha-only fallback path mutates the page (by rewriting content streams
to hide text before rasterizing). -/
theorem extract_images_pure_without_alpha_only (env : Env) (page : Page)
    (items : List ImageItem) (ratio : ℚ)
    (h : ∀ item ∈ items, (recover_pixmap env item).colorspace ≠ none) :
    (extract_images env page items ratio).1 = page := by
  have step_pres : ∀ (recs : List ImageRecord) (item : ImageItem),
      (recover_pixmap env item).colorspace ≠ none →
      (extract_step env ratio (page, recs) item).1 = page := by
    intro recs item hc
    cases hb : env.imageBbox item with
    | none => simp [extract_step, hb]
    | some bbox =>
      by_cases hi : Rect.intersects bbox page.rect
      · simp [extract_step, hb, hi, hc]
      · simp [extract_step, hb, hi]
  have main : ∀ (l : List ImageItem),
      (∀ item ∈ l, (recover_pixmap env item).colorspace ≠ none) →
      ∀ (recs : List ImageRecord),
        (l.foldl (extract_step env ratio) (page, recs)).1 = page := by
    intro l
    induction l with
    | nil => intro _ recs; rfl
    | cons it rest ih =>
      intro hl recs
      rw [List.foldl_cons]
      have h1 : (extract_step env ratio (page, recs) it).1 = page :=
        step_pres recs it (hl it (by simp))
      have h2 := ih (fun x hx => hl x (by simp [hx]))
        (extract_step env ratio (page, recs) it).2
      rw [show extract_step env ratio (page, recs) it
            = (page, (extract_step env ratio (page, recs) it).2) from
          Prod.ext h1 rfl]
      exact h2
  exact main items h []

/-- Witness for the amended C3: with only the gray image reference the
page comes back unchanged. -/
theorem extract_images_pure_without_alpha_only_witness :
    (extract_images envW pageW [⟨1, 0⟩] 3).1 = pageW :=
  extract_images_pure_without_alpha_only envW pageW [⟨1, 0⟩] 3 (by decide)

/-- A rectangle that intersects another one is itself non-degenerate. -/
theorem intersects_nondeg (r s : Rect) (h : Rect.intersects r s = true) :
    r.x0 < r.x1 ∧ r.y0 < r.y1 := by
  simp only [Rect.intersects, Bool.and_eq_true, Bool.not_eq_true',
    Rect.isEmptyR, Bool.or_eq_false_iff, decide_eq_false_iff_not] at h
  exact ⟨lt_of_not_le h.1.1.2, lt_of_not_le h.1.1.1⟩

/-- Union with any rectangle preserves non-degeneracy of the first
argument. -/
theorem union_nondeg (r s : Rect) (h : r.x0 < r.x1 ∧ r.y0 < r.y1) :
    (Rect.union r s).x0 < (Rect.union r s).x1 ∧
      (Rect.union r s).y0 < (Rect.union r s).y1 := by
  constructor
  · exact lt_of_le_of_lt (min_le_left _ _) (lt_of_lt_of_le h.1 (le_max_left _ _))
  · exact lt_of_le_of_lt (min_le_left _ _) (lt_of_lt_of_le h.2 (le_max_left _ _))

/-- Folding unions over any list of rectangles preserves non-degeneracy
of the starting rectangle. -/
theorem foldl_union_nondeg (l : List Rect) :
    ∀ a : Rect, a.x0 < a.x1 ∧ a.y0 < a.y1 →
      (l.foldl Rect.union a).x0 < (l.foldl Rect.union a).x1 ∧
        (l.foldl Rect.union a).y0 < (l.foldl Rect.union a).y1 := by
  induction l with
  | nil => intro a ha; exact ha
  | cons b rest ih =>
    intro a ha
    rw [List.foldl_cons]
    exact ih _ (union_nondeg a b ha)

/-- Normalized records copy the pixmap dimensions into both the record
fields and the PNG payload. -/
theorem to_raw_dict_dims (pix : Pixmap) (bbox : Rect) :
    (to_raw_dict pix bbox).width = (to_raw_dict pix bbox).image.width ∧
      (to_raw_dict pix bbox).height = (to_raw_dict pix bbox).image.height :=
  ⟨rfl, rfl⟩

/-- One extractor step preserves the record invariant. -/
theorem extract_step_good (env : Env) (ratio : ℚ) (page : Page)
    (recs : List ImageRecord) (item : ImageItem)
    (h : ∀ rec ∈ recs, goodRecord rec) :
    ∀ rec ∈ (extract_step env ratio (page, recs) item).2, goodRecord rec := by
  cases hb : env.imageBbox item with
  | none => simpa [extract_step, hb] using h
  | some bbox =>
    by_cases hi : Rect.intersects bbox page.rect
    · have hnd := intersects_nondeg bbox page.rect hi
      by_cases hc : (recover_pixmap env item).colorspace = none
      · simp only [extract_step, hb, hi, hc, if_true, if_pos]
        intro rec hrec
        rcases List.mem_append.mp hrec with hmem | hmem
        · exact h rec hmem
        · rcases List.mem_singleton.mp hmem with rfl
          exact ⟨hnd, to_raw_dict_dims _ _⟩
      · simp only [extract_step, hb, hi, hc, if_true, if_pos, if_neg]
        intro rec hrec
        rcases List.mem_append.mp hrec with hmem | hmem
        · exact h rec hmem
        · rcases List.mem_singleton.mp hmem with rfl
          exact ⟨hnd, to_raw_dict_dims _ _⟩
    · simpa [extract_step, hb, hi] using h

/-- The extractor fold preserves the record invariant. -/
theorem extract_fold_good (env : Env) (ratio : ℚ) (items : List ImageItem) :
    ∀ (page : Page) (recs : List ImageRecord),
      (∀ rec ∈ recs, goodRecord rec) →
      ∀ rec ∈ (items.foldl (extract_step env ratio) (page, recs)).2,
        goodRecord rec := by
  induction items with
  | nil => intro page recs h; exact h
  | cons it rest ih =>
    intro page recs h
    rw [List.foldl_cons]
    exact ih _ _ (extract_step_good env ratio page recs it h)

/-- C9: every record produced by `extract_images` or by
`extract_vector_graphics` (from contour boxes of the non-degenerate
`cv.boundingRect` form) has a non-degenerate bounding box, and its
width/height fields equal the pixel dimensions of the buffer encoded
into its PNG payload. -/
theorem produced_records_good (env : Env) (page : Page)
    (items : List ImageItem) (contours : List Rect) (ratio : ℚ)
    (hcont : ∀ r ∈ contours, r.x0 < r.x1 ∧ r.y0 < r.y1) :
    (∀ rec ∈ (extract_images env page items ratio).2, goodRecord rec) ∧
      (∀ rec ∈ extract_vector_graphics env page contours ratio,
        goodRecord rec) := by
  constructor
  · exact extract_fold_good env ratio items page [] (by simp)
  · intro rec hrec
    rcases List.mem_map.mp hrec with ⟨bbox, hbox, rfl⟩
    have hmem : bbox ∈ (contours.map (clusterBox contours)) :=
      (List.mem_dedup).mp hbox
    rcases List.mem_map.mp hmem with ⟨a, ha, rfl⟩
    have hnd : (clusterBox contours a).x0 < (clusterBox contours a).x1 ∧
        (clusterBox contours a).y0 < (clusterBox contours a).y1 :=
      foldl_union_nondeg _ a (hcont a ha)
    exact ⟨hnd, to_raw_dict_dims _ _⟩

/-- Witness for C9 on a concrete raster item and contour set. -/
theorem produced_records_good_witness :
    (∀ rec ∈ (extract_images envW pageW [⟨1, 0⟩] 3).2, goodRecord rec) ∧
      (∀ rec ∈ extract_vector_graphics envW pageW [⟨0, 0, 5, 5⟩] 3,
        goodRecord rec) :=
  produced_records_good envW pageW [⟨1, 0⟩] [⟨0, 0, 5, 5⟩] 3 (by decide)

/-- Rectangle intersection is commutative. -/
theorem Rect.inter_commutes (r s : Rect) : Rect.inter r s = Rect.inter s r := by
  simp [Rect.inter, max_comm, min_comm]

/-- The intersection test is symmetric. -/
theorem Rect.intersects_commutes (r s : Rect) :
    Rect.intersects r s = Rect.intersects s r := by
  unfold Rect.intersects
  rw [Rect.inter_commutes]
  cases r.isEmptyR <;> cases s.isEmptyR <;> simp

/-- Rectangle union is idempotent. -/
theorem Rect.union_self (r : Rect) : Rect.union r r = r := by
  simp [Rect.union]

/-- Rectangle union is commutative. -/
theorem Rect.union_commutes (r s : Rect) : Rect.union r s = Rect.union s r := by
  simp [Rect.union, max_comm, min_comm]

/-- Rectangle union is associative. -/
theorem Rect.union_associates (r s t : Rect) :
    Rect.union (Rect.union r s) t = Rect.union r (Rect.union s t) := by
  simp [Rect.union, max_assoc, min_assoc]

/-- Reachability is reflexive at any fuel. -/
theorem reachb_self (n : Nat) (l : List Rect) (a : Rect) :
    reachb n l a a = true := by
  cases n <;> simp [reachb]

/-- Reachability extends along one intersecting hop through a member. -/
theorem reachb_succ_of (n : Nat) (l : List Rect) (a b y : Rect)
    (hy : y ∈ l) (hxy : Rect.intersects a y = true)
    (hr : reachb n l y b = true) : reachb (n + 1) l a b = true := by
  simp only [reachb, Bool.or_eq_true, List.any_eq_true]
  exact Or.inr ⟨y, hy, by simp [hxy, hr]⟩

/-- Membership of both endpoints plus a reachability chain gives cluster
connectivity. -/
theorem connectedb_of (l : List Rect) (a b : Rect) (ha : a ∈ l) (hb : b ∈ l)
    (hr : reachb l.length l a b = true) : connectedb l a b = true := by
  unfold connectedb
  simp [List.elem_eq_mem, ha, hb, hr]

/-- C4: for a contour set of three boxes where A intersects B and B
intersects C (A and C disjoint), grouping yields a single cluster whose
bounding box is the union of the three boxes. -/
theorem group_bboxes_chain_of_three (A B C : Rect)
    (hAB : Rect.intersects A B = true) (hBC : Rect.intersects B C = true)
    (hAC : Rect.intersects A C = false) :
    group_bboxes [A, B, C] = {Rect.union (Rect.union A B) C} := by
  have hBA : Rect.intersects B A = true := by
    rw [Rect.intersects_commutes]; exact hAB
  have hCB : Rect.intersects C B = true := by
    rw [Rect.intersects_commutes]; exact hBC
  have memA : A ∈ [A, B, C] := by simp
  have memB : B ∈ [A, B, C] := by simp
  have memC : C ∈ [A, B, C] := by simp
  have rAB : reachb 3 [A, B, C] A B = true :=
    reachb_succ_of 2 _ A B B memB hAB (reachb_self 2 _ B)
  have rAC : reachb 3 [A, B, C] A C = true :=
    reachb_succ_of 2 _ A C B memB hAB
      (reachb_succ_of 1 _ B C C memC hBC (reachb_self 1 _ C))
  have rBA : reachb 3 [A, B, C] B A = true :=
    reachb_succ_of 2 _ B A A memA hBA (reachb_self 2 _ A)
  have rBC : reachb 3 [A, B, C] B C = true :=
    reachb_succ_of 2 _ B C C memC hBC (reachb_self 2 _ C)
  have rCA : reachb 3 [A, B, C] C A = true :=
    reachb_succ_of 2 _ C A B memB hCB
      (reachb_succ_of 1 _ B A A memA hBA (reachb_self 1 _ A))
  have rCB : reachb 3 [A, B, C] C B = true :=
    reachb_succ_of 2 _ C B B memB hCB (reachb_self 2 _ B)
  have key : ∀ x ∈ [A, B, C], ∀ y ∈ [A, B, C],
      reachb 3 [A, B, C] x y = true := by
    intro x hx y hy
    simp only [List.mem_cons, List.mem_singleton, List.not_mem_nil,
      or_false] at hx hy
    rcases hx with rfl | rfl | rfl <;> rcases hy with rfl | rfl | rfl <;>
      first
        | exact reachb_self 3 _ _
        | exact rAB
        | exact rAC
        | exact rBA
        | exact rBC
        | exact rCA
        | exact rCB
  have call : ∀ a ∈ [A, B, C], ∀ b ∈ [A, B, C],
      connectedb [A, B, C] a b = true := by
    intro a ha b hb
    exact connectedb_of _ a b ha hb (key a ha b hb)
  have hfilter : ∀ a ∈ [A, B, C],
      List.filter (fun b => connectedb [A, B, C] a b) [A, B, C] = [A, B, C] :=
    fun a ha => List.filter_eq_self.mpr (fun b hb => call a ha b hb)
  have cA : clusterBox [A, B, C] A = Rect.union (Rect.union A B) C := by
    unfold clusterBox
    rw [hfilter A memA]
    show Rect.union (Rect.union (Rect.union A A) B) C = _
    rw [Rect.union_self]
  have cB : clusterBox [A, B, C] B = Rect.union (Rect.union A B) C := by
    unfold clusterBox
    rw [hfilter B memB]
    show Rect.union (Rect.union (Rect.union B A) B) C = _
    rw [Rect.union_commutes B A, Rect.union_associates A B B, Rect.union_self]
  have cC : clusterBox [A, B, C] C = Rect.union (Rect.union A B) C := by
    unfold clusterBox
    rw [hfilter C memC]
    show Rect.union (Rect.union (Rect.union C A) B) C = _
    rw [Rect.union_commutes C A, Rect.union_associates A C B,
      Rect.union_commutes C B, ← Rect.union_associates A B C,
      Rect.union_associates (Rect.union A B) C C, Rect.union_self]
  unfold group_bboxes
  rw [show List.map (clusterBox [A, B, C]) [A, B, C]
        = [clusterBox [A, B, C] A, clusterBox [A, B, C] B,
           clusterBox [A, B, C] C] from rfl,
    cA, cB, cC]
  simp

/-- Witness for C4 on a concrete chain of three boxes. -/
theorem group_bboxes_chain_of_three_witness :
    group_bboxes [⟨0, 0, 4, 4⟩, ⟨3, 0, 7, 4⟩, ⟨6, 0, 10, 4⟩]
      = {Rect.union (Rect.union ⟨0, 0, 4, 4⟩ ⟨3, 0, 7, 4⟩) ⟨6, 0, 10, 4⟩} :=
  group_bboxes_chain_of_three ⟨0, 0, 4, 4⟩ ⟨3, 0, 7, 4⟩ ⟨6, 0, 10, 4⟩
    (by decide) (by decide) (by decide)

/-- The `any` combinator only depends on the members of the list. -/
theorem perm_any_eq (l l' : List Rect) (h : l.Perm l') (f : Rect → Bool) :
    l.any f = l'.any f := by
  induction h with
  | nil => rfl
  | cons x _ ih => simp [List.any_cons, ih]
  | swap x y t => simp [List.any_cons, Bool.or_left_comm]
  | trans _ _ ih1 ih2 => exact (ih1 ..).trans (ih2 ..)

/-- Membership testing only depends on the members of the list. -/
theorem perm_contains_eq (l l' : List Rect) (h : l.Perm l') (a : Rect) :
    l.contains a = l'.contains a := by
  simp only [List.elem_eq_mem]
  exact decide_eq_decide.mpr h.mem_iff

/-- Reachability only depends on the members (and length) of the contour
list, so it is invariant under permutation. -/
theorem perm_reachb_eq (l l' : List Rect) (h : l.Perm l') :
    ∀ (n : Nat) (a b : Rect), reachb n l a b = reachb n l' a b := by
  intro n
  induction n with
  | zero => intro a b; rfl
  | succ n ih =>
    intro a b
    simp only [reachb]
    have hfun : (fun y => Rect.intersects a y && reachb n l y b)
        = fun y => Rect.intersects a y && reachb n l' y b :=
      funext fun y => by rw [ih]
    rw [hfun, perm_any_eq l l' h]

/-- Cluster connectivity is invariant under permutation of the contour
list. -/
theorem perm_connectedb_eq (l l' : List Rect) (h : l.Perm l') (a b : Rect) :
    connectedb l a b = connectedb l' a b := by
  unfold connectedb
  rw [perm_contains_eq l l' h a, perm_contains_eq l l' h b, h.length_eq,
    perm_reachb_eq l l' h]

/-- Union is right-commutative, so cluster boxes may be folded in any
member order. -/
theorem union_right_commutes (z x y : Rect) :
    Rect.union (Rect.union z x) y = Rect.union (Rect.union z y) x := by
  rw [Rect.union_associates, Rect.union_associates, Rect.union_commutes x y]

/-- The cluster box of an element is invariant under permutation of the
contour list. -/
theorem perm_clusterBox_eq (l l' : List Rect) (h : l.Perm l') (a : Rect) :
    clusterBox l a = clusterBox l' a := by
  unfold clusterBox
  have hfun : (fun b => connectedb l a b) = fun b => connectedb l' a b :=
    funext (perm_connectedb_eq l l' h a)
  rw [hfun]
  exact List.Perm.foldl_eq' (List.Perm.filter _ h)
    (fun x _ y _ z => union_right_commutes z x y) a

/-- C8: region grouping is order-independent — permuting the contour list
yields the same set of cluster bounding boxes. -/
theorem group_bboxes_perm_invariant (l l' : List Rect) (h : l.Perm l') :
    group_bboxes l = group_bboxes l' := by
  unfold group_bboxes
  have hfun : clusterBox l = clusterBox l' := funext (perm_clusterBox_eq l l' h)
  rw [hfun]
  exact List.toFinset_eq_of_perm _ _ (h.map _)

/-- Witness for C8: swapping two concrete contour boxes leaves the
cluster-box set unchanged. -/
theorem group_bboxes_perm_invariant_witness :
    group_bboxes [boxOut, boxIn] = group_bboxes [boxIn, boxOut] :=
  group_bboxes_perm_invariant [boxOut, boxIn] [boxIn, boxOut]
    (List.Perm.swap boxIn boxOut [])

/-- An indexed map that fixes every entry is the identity. -/
theorem mapIdx_self (l : List Nat) (f : Nat → Nat → Nat)
    (h : ∀ (i : Fin l.length), f i (l.get i) = l.get i) : l.mapIdx f = l := by
  rw [List.mapIdx_eq_ofFn]
  conv_rhs => rw [← List.ofFn_get l]
  exact congrArg _ (funext h)

/-- An indexed map on rows that fixes every row is the identity. -/
theorem mapIdx_rows_self (g : List (List Nat)) (f : Nat → List Nat → List Nat)
    (h : ∀ (i : Fin g.length), f i (g.get i) = g.get i) : g.mapIdx f = g := by
  rw [List.mapIdx_eq_ofFn]
  conv_rhs => rw [← List.ofFn_get g]
  exact congrArg _ (funext h)

/-- Slice-endpoint resolution for a non-negative endpoint. -/
theorem resolveIdx_of_nonneg (n : Nat) (i : Int) (h : 0 ≤ i) :
    resolveIdx n i = min i.toNat n := by
  unfold resolveIdx
  rw [if_neg (by omega)]

/-- Slice-endpoint resolution for a negative endpoint wraps by the axis
length. -/
theorem resolveIdx_of_neg (n : Nat) (i : Int) (h : i < 0) :
    resolveIdx n i = (max (i + n) 0).toNat := by
  unfold resolveIdx
  rw [if_pos h]

/-- C10: exclusion-area blanking is only correct away from the top/left
edges.  (a) For a box with `x0 >= 2` and `y0 >= 2`, every in-bounds pixel
in rows `y0-2..y1+1` and columns `x0-2..x1+1` is set to white (255).
(b) For a box with `x0 < 2` whose right edge stays to the left of the
wrapped column start, and (c) for a box with `y0 < 2` whose bottom edge
stays above the wrapped row start, the image is left entirely unchanged:
the excluded area's ink remains. -/
theorem blank_exclusion_edge_cases :
    (∀ (g : List (List Nat)) (x0 y0 x1 y1 : Int) (i j : Nat) (row : List Nat),
      2 ≤ x0 → 2 ≤ y0 →
      y0 - 2 ≤ (i : Int) → (i : Int) < y1 + 2 →
      x0 - 2 ≤ (j : Int) → (j : Int) < x1 + 2 →
      g[i]? = some row → j < row.length →
      ∃ row2 : List Nat, (blankBox g x0 y0 x1 y1)[i]? = some row2 ∧
        row2[j]? = some 255) ∧
    (∀ (g : List (List Nat)) (x0 y0 x1 y1 : Int),
      0 ≤ x0 → x0 < 2 → x0 ≤ x1 →
      (∀ row ∈ g, x1 + 2 ≤ (row.length : Int) + x0 - 2) →
      blankBox g x0 y0 x1 y1 = g) ∧
    (∀ (g : List (List Nat)) (x0 y0 x1 y1 : Int),
      0 ≤ y0 → y0 < 2 → y0 ≤ y1 →
      y1 + 2 ≤ (g.length : Int) + y0 - 2 →
      blankBox g x0 y0 x1 y1 = g) := by
  refine ⟨?_, ?_, ?_⟩
  · intro g x0 y0 x1 y1 i j row hx0 hy0 hi1 hi2 hj1 hj2 hrow hjlen
    have hig : i < g.length := by
      by_contra hc
      rw [List.getElem?_eq_none (by omega)] at hrow
      exact Option.noConfusion hrow
    have h1 : resolveIdx g.length (y0 - 2) ≤ i := by
      rw [resolveIdx_of_nonneg _ _ (by omega)]
      omega
    have h2 : i < resolveIdx g.length (y1 + 2) := by
      rw [resolveIdx_of_nonneg _ _ (by omega)]
      omega
    have h3 : resolveIdx row.length (x0 - 2) ≤ j := by
      rw [resolveIdx_of_nonneg _ _ (by omega)]
      omega
    have h4 : j < resolveIdx row.length (x1 + 2) := by
      rw [resolveIdx_of_nonneg _ _ (by omega)]
      omega
    refine ⟨sliceSet255 row (x0 - 2) (x1 + 2), ?_, ?_⟩
    · simp only [blankBox]
      rw [List.getElem?_mapIdx, hrow]
      simp only [Option.map_some']
      rw [if_pos ⟨h1, h2⟩]
    · simp only [sliceSet255]
      rw [List.getElem?_mapIdx, List.getElem?_eq_getElem hjlen]
      simp only [Option.map_some']
      rw [if_pos ⟨h3, h4⟩]
  · intro g x0 y0 x1 y1 hx0 hx02 hx01 hrows
    simp only [blankBox]
    refine mapIdx_rows_self g _ (fun i => ?_)
    dsimp only
    split
    · have hmem : g.get i ∈ g := g.get_mem i.1 i.2
      have hlen := hrows (g.get i) hmem
      simp only [sliceSet255]
      refine mapIdx_self _ _ (fun j => ?_)
      dsimp only
      rw [if_neg]
      rw [resolveIdx_of_neg _ _ (by omega), resolveIdx_of_nonneg _ _ (by omega)]
      omega
    · rfl
  · intro g x0 y0 x1 y1 hy0 hy02 hy01 hlen
    simp only [blankBox]
    refine mapIdx_rows_self g _ (fun i => ?_)
    dsimp only
    rw [if_neg]
    rw [resolveIdx_of_neg _ _ (by omega), resolveIdx_of_nonneg _ _ (by omega)]
    omega

/-- Witness for C10 on a concrete 6-by-6 image with value 7 everywhere:
an interior exclusion box blanks pixel (1,1), while boxes touching the
left or top edge leave the image unchanged. -/
theorem blank_exclusion_edge_cases_witness :
    (∃ row2 : List Nat,
      (blankBox (List.replicate 6 (List.replicate 6 7)) 2 2 3 3)[1]? = some row2 ∧
        row2[1]? = some 255) ∧
    blankBox (List.replicate 6 (List.replicate 6 7)) 0 2 1 3
      = List.replicate 6 (List.replicate 6 7) ∧
    blankBox (List.replicate 6 (List.replicate 6 7)) 2 0 3 1
      = List.replicate 6 (List.replicate 6 7) := by
  refine ⟨?_, ?_, ?_⟩
  · exact blank_exclusion_edge_cases.1 (List.replicate 6 (List.replicate 6 7))
      2 2 3 3 1 1 (List.replicate 6 7) (by decide) (by decide) (by decide)
      (by decide) (by decide) (by decide) (by decide) (by decide)
  · exact blank_exclusion_edge_cases.2.1 (List.replicate 6 (List.replicate 6 7))
      0 2 1 3 (by decide) (by decide) (by decide) (by decide)
  · exact blank_exclusion_edge_cases.2.2 (List.replicate 6 (List.replicate 6 7))
      2 0 3 1 (by decide) (by decide) (by decide) (by decide)
